import Mathlib

/-!
Verification of the generational genetic-algorithm engine in gaft (src/gaft/engine.py).

The engine code is embedded shallowly:

* Python floats appearing in fitness values are modelled as exact rationals;
  the special float values and non-float Python values that matter to the
  fitness-check wrapper are modelled by the `PyVal` type.
* Python exceptions are modelled by the `Err` type together with
  `Except Err` results (or an `Option Err` component for state-threading code).
  Exception message payloads are abbreviated where the Python code
  interpolates runtime values into them.
* The engine object is the record `Engine`; the pluggable operator strategies
  (selection, crossover, mutation) are parameters (`GAOps`), since they are
  external collaborators of the engine.
* Collaborator code of the repository that is not part of engine.py
  (GAPopulation reductions and best lookup, the mpi helper) is modelled from
  the spec; every such definition carries a doc comment saying so.
* Analysis hooks are modelled by their interval, and hook lifecycle calls are
  recorded in an event trace carried by the engine state, so that lifecycle
  claims become statements about the trace.
-/

namespace Gaft

/-- Python exceptions that the engine and its collaborators can raise. -/
inductive Err where
  | attributeError (msg : String)
  | typeError (msg : String)
  | valueError (msg : String)
  | indexError (msg : String)
  | other (msg : String)
deriving DecidableEq, Repr

/-- Python runtime values that can come back from a user fitness function:
finite floats (as exact rationals), the special float values inf, -inf and
nan, integers, strings and None.  Only the distinctions used by the
fitness-check wrapper are modelled. -/
inductive PyVal where
  | float (q : ℚ)
  | inf
  | ninf
  | nan
  | int (n : ℤ)
  | str (s : String)
  | pyNone
deriving DecidableEq, Repr

/-- Python `type(v) is float`: true exactly for float values, including the
special values inf, -inf and nan. -/
def PyVal.isFloat : PyVal → Bool
  | .float _ => true
  | .inf => true
  | .ninf => true
  | .nan => true
  | _ => false

/-- Python `math.isnan`. -/
def PyVal.isNan : PyVal → Bool
  | .nan => true
  | _ => false

/-- Claim-side predicate (not from the source): a numeric, non-NaN value.
The spec phrase is a finite real number, glossed there as neither
non-numeric nor NaN; note it also counts integers, and counts the infinite
floats as numeric non-NaN. -/
def PyVal.isNumericNonNan : PyVal → Bool
  | .float _ => true
  | .inf => true
  | .ninf => true
  | .int _ => true
  | _ => false

/-- Python objects passed to a registered fitness function: either a
GAIndividual instance (with an identity tag) or some other object. -/
inductive PyObj where
  | gaIndividual (id : Nat)
  | other (tag : String)
deriving DecidableEq, Repr

/-- Python `isinstance(obj, GAIndividual)`. -/
def PyObj.isGAIndividual : PyObj → Bool
  | .gaIndividual _ => true
  | .other _ => false

/-- Message of the ValueError raised by the fitness-check wrapper
(engine.py lines 169-171).  The Python message interpolates the offending
value and its type; the payload is abbreviated here. -/
def invalidFitnessMsg : String := "Fitness value is invalid"

/-- Embedding of `_fn_with_fitness_check` built by `GAEngine.fitness_register`
(engine.py lines 156-172): reject a non-GAIndividual argument with a
TypeError, call the wrapped function, reject a result that is not a float or
that is NaN with a ValueError, and otherwise return the result unmodified.
The second component instruments the wrapper with the number of calls made
to the wrapped raw function `fn`. -/
def fnWithFitnessCheck (fn : PyObj → PyVal) (indv : PyObj) :
    Except Err PyVal × Nat :=
  if ¬ indv.isGAIndividual then
    (Except.error (Err.typeError "indv must be a GAIndividual object"), 0)
  else
    let fitness := fn indv
    if ¬ fitness.isFloat ∨ fitness.isNan then
      (Except.error (Err.valueError invalidFitnessMsg), 1)
    else
      (Except.ok fitness, 1)

/-- The view of mutable engine state that the scaling closures read at call
time: the population statistics fields (None until first computed) and the
current generation counter. -/
structure Ctx where
  fmax : Option ℚ
  fmin : Option ℚ
  fmean : Option ℚ
  generation : ℤ
deriving Repr

/-- Embedding of `_fn_with_linear_scaling` built by `GAEngine.linear_scaling`
(engine.py lines 210-220): compute the raw fitness, then for target max
return `f - fmin + ksi`, for target min return `fmax - f + ksi`, reading the
statistic from the engine state at call time, and raise a ValueError for any
other target.  Arithmetic against a statistic that is still None raises a
TypeError, as Python operand arithmetic on None would. -/
def fnWithLinearScaling {Indv : Type} (target : String) (ksi : ℚ)
    (fn : Indv → ℚ) (ctx : Ctx) (indv : Indv) : Except Err ℚ :=
  let f := fn indv
  if target = "max" then
    match ctx.fmin with
    | none => Except.error (Err.typeError "unsupported operand type")
    | some fmin => Except.ok (f - fmin + ksi)
  else if target = "min" then
    match ctx.fmax with
    | none => Except.error (Err.typeError "unsupported operand type")
    | some fmax => Except.ok (fmax - f + ksi)
  else
    Except.error (Err.valueError ("Invalid target type(" ++ target ++ ")"))

/-- Embedding of `_fn_with_dynamic_linear_scaling` built by
`GAEngine.dynamic_linear_scaling` (engine.py lines 250-260): like static
linear scaling, but the adjustment term is `ksi0 * r ^ k` with
`k = current_generation + 1` read from the engine state at call time. -/
def fnWithDynamicLinearScaling {Indv : Type} (target : String) (ksi0 r : ℚ)
    (fn : Indv → ℚ) (ctx : Ctx) (indv : Indv) : Except Err ℚ :=
  let f := fn indv
  let k : ℤ := ctx.generation + 1
  if target = "max" then
    match ctx.fmin with
    | none => Except.error (Err.typeError "unsupported operand type")
    | some fmin => Except.ok (f - fmin + ksi0 * r ^ k)
  else if target = "min" then
    match ctx.fmax with
    | none => Except.error (Err.typeError "unsupported operand type")
    | some fmax => Except.ok (fmax - f + ksi0 * r ^ k)
  else
    Except.error (Err.valueError ("Invalid target type(" ++ target ++ ")"))

/-- Deep representation of the fitness-function objects the engine stores in
its `fitness` and `ori_fitness` attributes, so that reference bookkeeping
(which function object each attribute points at) is expressible.  `raw tag`
is a user-supplied function, the other constructors are the wrappers the
engine builds around one. -/
inductive FitFn where
  | raw (tag : Nat)
  | checked (inner : FitFn)
  | linScaled (target : String) (ksi : ℚ) (inner : FitFn)
  | dynScaled (target : String) (ksi0 : ℚ) (r : ℚ) (inner : FitFn)
deriving DecidableEq, Repr

/-- The two fitness-function attributes of the engine
(engine.py line 54: both start as None). -/
structure FitRefs where
  fitness : Option FitFn
  ori_fitness : Option FitFn
deriving DecidableEq, Repr

/-- Embedding of the attribute updates of `GAEngine.fitness_register`
(engine.py lines 174-176): store the checking wrapper as the active fitness,
and store it as `ori_fitness` too, but only when `ori_fitness` is None. -/
def fitness_register (st : FitRefs) (fn : FitFn) : FitRefs :=
  let wrapper := FitFn.checked fn
  { fitness := some wrapper
    ori_fitness := if st.ori_fitness = none then some wrapper else st.ori_fitness }

/-- Embedding of the inner decorator `_linear_scaling` of
`GAEngine.linear_scaling` (engine.py lines 205-222): unconditionally store
the supplied raw function as `ori_fitness` and return the scaled wrapper.
The active `fitness` attribute is not touched by this function. -/
def linear_scaling (st : FitRefs) (target : String) (ksi : ℚ) (fn : FitFn) :
    FitRefs × FitFn :=
  ({ st with ori_fitness := some fn }, FitFn.linScaled target ksi fn)

/-- Embedding of the inner decorator `_dynamic_linear_scaling` of
`GAEngine.dynamic_linear_scaling` (engine.py lines 245-262): unconditionally
store the supplied raw function as `ori_fitness` and return the scaled
wrapper.  The active `fitness` attribute is not touched by this function. -/
def dynamic_linear_scaling (st : FitRefs) (target : String) (ksi0 r : ℚ)
    (fn : FitFn) : FitRefs × FitFn :=
  ({ st with ori_fitness := some fn }, FitFn.dynScaled target ksi0 r fn)

/-- Hook lifecycle calls made by the engine, recorded in an event trace.
A hook is identified by its position in the registration list. -/
inductive Event where
  | setup (hook : Nat) (ng : Nat)
  | registerStep (hook : Nat) (g : Nat)
  | finalize (hook : Nat)
deriving DecidableEq, Repr

/-- True exactly on finalize events. -/
def Event.isFin : Event → Bool
  | .finalize _ => true
  | _ => false

/-- The engine state mutated by `run` (attributes of GAEngine, engine.py
lines 42-57), plus the hook-call event trace used as instrumentation.
The fitness attributes here are the semantic functions the loop calls: the
active fitness reads the mutable engine state through a `Ctx` at call time,
the original fitness is a plain scoring function. -/
structure Engine (Indv : Type) where
  individuals : List Indv
  fitness : Option (Ctx → Indv → Except Err ℚ)
  ori_fitness : Option (Indv → Except Err ℚ)
  fmax : Option ℚ
  fmin : Option ℚ
  fmean : Option ℚ
  current_generation : ℤ
  trace : List Event

/-- The call-time view of the engine state read by scaling closures. -/
def ctxOf {Indv : Type} (st : Engine Indv) : Ctx :=
  ⟨st.fmax, st.fmin, st.fmean, st.current_generation⟩

/-- Embedding of the attribute assignments of `GAEngine.__init__`
(engine.py lines 42-57): line 44 stores the fitness argument in
`self.fitness`, but line 54 then unconditionally overwrites both
`self.ori_fitness` and `self.fitness` with None, and line 57 sets the
generation counter to -1.  The dead store of line 44 is kept visible. -/
def engineInit {Indv : Type} (pop : List Indv)
    (fitness : Option (Ctx → Indv → Except Err ℚ)) : Engine Indv :=
  let self_fitness := fitness
  let self_fitness := (none : Option (Ctx → Indv → Except Err ℚ))
  { individuals := pop
    fitness := self_fitness
    ori_fitness := none
    fmax := none
    fmin := none
    fmean := none
    current_generation := -1
    trace := [] }

/-- The external operator strategies the engine calls (GASelection,
GACrossover, GAMutation); each call is fallible and receives a unit index so
that distinct reproduction units may behave differently (the source
strategies are randomized).  Selection receives the active fitness function,
mutation receives the engine context, as in engine.py lines 95-99. -/
structure GAOps (Indv : Type) where
  sel : (Indv → Except Err ℚ) → List Indv → Nat → Except Err (Indv × Indv)
  cross : Nat → Indv → Indv → Except Err (Indv × Indv)
  mutate : Ctx → Nat → Indv → Except Err Indv

/-- Modelled from the spec: `mpi.split_size` in the single-process degenerate
case of the Distributed Reproduction Coordinator, split(n) = n. -/
def split_size (n : Nat) : Nat := n

/-- Modelled from the spec: `mpi.merge_seq` in the single-process degenerate
case of the Distributed Reproduction Coordinator, merge(seq) = seq. -/
def merge_seq {Indv : Type} (l : List Indv) : List Indv := l

/-- Evaluate a fallible scoring function on every member of the population,
propagating the first exception. -/
def scoreVals {Indv : Type} (f : Indv → Except Err ℚ) :
    List Indv → Except Err (List ℚ)
  | [] => Except.ok []
  | x :: xs =>
    match f x with
    | Except.error e => Except.error e
    | Except.ok v =>
      match scoreVals f xs with
      | Except.error e => Except.error e
      | Except.ok vs => Except.ok (v :: vs)

/-- Modelled from the spec: `GAPopulation.max`, the scalar max reduction over
a scoring function; raises on an empty population. -/
def popMax {Indv : Type} (f : Indv → Except Err ℚ) (l : List Indv) :
    Except Err ℚ :=
  match scoreVals f l with
  | Except.error e => Except.error e
  | Except.ok vs =>
    match vs.max? with
    | none => Except.error (Err.valueError "max() arg is an empty sequence")
    | some m => Except.ok m

/-- Modelled from the spec: `GAPopulation.min`, the scalar min reduction over
a scoring function; raises on an empty population. -/
def popMin {Indv : Type} (f : Indv → Except Err ℚ) (l : List Indv) :
    Except Err ℚ :=
  match scoreVals f l with
  | Except.error e => Except.error e
  | Except.ok vs =>
    match vs.min? with
    | none => Except.error (Err.valueError "min() arg is an empty sequence")
    | some m => Except.ok m

/-- Modelled from the spec: `GAPopulation.mean`, the scalar mean reduction
over a scoring function; raises on an empty population. -/
def popMean {Indv : Type} (f : Indv → Except Err ℚ) (l : List Indv) :
    Except Err ℚ :=
  match scoreVals f l with
  | Except.error e => Except.error e
  | Except.ok vs =>
    if vs.length = 0 then Except.error (Err.valueError "mean of empty sequence")
    else Except.ok (vs.sum / (vs.length : ℚ))

/-- Modelled from the spec: `GAPopulation.best_indv`, the single best
Candidate in the population under the given fitness function (a best lookup
over a scoring function); raises on an empty population. -/
def bestIndv {Indv : Type} (fitc : Indv → Except Err ℚ) (l : List Indv) :
    Except Err Indv :=
  match scoreVals fitc l with
  | Except.error e => Except.error e
  | Except.ok vs =>
    match (l.zip vs).argmax Prod.snd with
    | none => Except.error (Err.valueError "best of an empty population")
    | some p => Except.ok p.1

/-- Embedding of the statistics refresh of `GAEngine.run` (engine.py lines
73-75 and 111-113): recompute fmax, fmin, fmean in that order over the
original fitness; an exception leaves the later fields unassigned.  A None
`ori_fitness` raises a TypeError, as calling None in Python would. -/
def statsUpdate {Indv : Type} (st : Engine Indv) : Engine Indv × Option Err :=
  match st.ori_fitness with
  | none => (st, some (Err.typeError "NoneType object is not callable"))
  | some ofit =>
    match popMax ofit st.individuals with
    | Except.error e => (st, some e)
    | Except.ok mx =>
      let st1 := { st with fmax := some mx }
      match popMin ofit st1.individuals with
      | Except.error e => (st1, some e)
      | Except.ok mn =>
        let st2 := { st1 with fmin := some mn }
        match popMean ofit st2.individuals with
        | Except.error e => (st2, some e)
        | Except.ok me => ({ st2 with fmean := some me }, none)

/-- Embedding of one reproduction unit of the loop body (engine.py lines
94-101): select two parents with the active fitness, cross them, mutate each
child, and emit the two children in order. -/
def reproduceUnit {Indv : Type} (ops : GAOps Indv)
    (fitc : Indv → Except Err ℚ) (ctx : Ctx) (pop : List Indv) (i : Nat) :
    Except Err (List Indv) :=
  match ops.sel fitc pop i with
  | Except.error e => Except.error e
  | Except.ok parents =>
    match ops.cross i parents.1 parents.2 with
    | Except.error e => Except.error e
    | Except.ok children =>
      match ops.mutate ctx i children.1 with
      | Except.error e => Except.error e
      | Except.ok c1 =>
        match ops.mutate ctx i children.2 with
        | Except.error e => Except.error e
        | Except.ok c2 => Except.ok [c1, c2]

/-- Embedding of the reproduction loop `for _ in range(local_size)`
(engine.py lines 93-101), iterated over the list of unit indices: children
are accumulated in emission order. -/
def reproduceAll {Indv : Type} (ops : GAOps Indv)
    (fitc : Indv → Except Err ℚ) (ctx : Ctx) (pop : List Indv) :
    List Nat → Except Err (List Indv)
  | [] => Except.ok []
  | i :: is =>
    match reproduceUnit ops fitc ctx pop i with
    | Except.error e => Except.error e
    | Except.ok cs =>
      match reproduceAll ops fitc ctx pop is with
      | Except.error e => Except.error e
      | Except.ok rest => Except.ok (cs ++ rest)

/-- The register-step events emitted by the hook-dispatch loop of one
generation (engine.py lines 116-118), for hooks numbered from `n`: hook `i`
fires at generation `g` exactly when `g % interval = 0`. -/
def stepEventsFrom (g : Nat) : Nat → List Nat → List Event
  | _, [] => []
  | i, k :: ks =>
    (if g % k = 0 then [Event.registerStep i g] else []) ++
      stepEventsFrom g (i + 1) ks

/-- The register-step events of generation `g` over the registered hooks. -/
def stepEvents (hooks : List Nat) (g : Nat) : List Event :=
  stepEventsFrom g 0 hooks

/-- The setup events emitted before the loop (engine.py lines 78-79), for
hooks numbered from `n`. -/
def setupEventsFrom (ng : Nat) : Nat → List Nat → List Event
  | _, [] => []
  | i, _ :: ks => Event.setup i ng :: setupEventsFrom ng (i + 1) ks

/-- The setup events over the registered hooks. -/
def setupEvents (hooks : List Nat) (ng : Nat) : List Event :=
  setupEventsFrom ng 0 hooks

/-- The finalize events emitted by the finally block (engine.py lines
129-130), for hooks numbered from `n`. -/
def finalizeEventsFrom : Nat → List Nat → List Event
  | _, [] => []
  | i, _ :: ks => Event.finalize i :: finalizeEventsFrom (i + 1) ks

/-- The finalize events over the registered hooks, in registration order. -/
def finalizeEvents (hooks : List Nat) : List Event :=
  finalizeEventsFrom 0 hooks

/-- Embedding of the body of one evolution generation (engine.py lines
84-113): set the generation counter, capture the best individual of the
current population under the active fitness, run the reproduction units,
merge, overwrite index 0 of the merged sequence with the captured best,
replace the population, and refresh the statistics.  Writing index 0 of an
empty merged sequence raises an IndexError as the Python list assignment
would.  A None active fitness raises a TypeError, as the population best
lookup on None would. -/
def genBody {Indv : Type} (ops : GAOps Indv) (st : Engine Indv) (g : Nat) :
    Engine Indv × Option Err :=
  let st := { st with current_generation := (g : ℤ) }
  match st.fitness with
  | none => (st, some (Err.typeError "NoneType object is not callable"))
  | some fit =>
    let ctx := ctxOf st
    let fitc := fit ctx
    match bestIndv fitc st.individuals with
    | Except.error e => (st, some e)
    | Except.ok best =>
      let local_size := split_size (st.individuals.length / 2)
      match reproduceAll ops fitc ctx st.individuals (List.range local_size) with
      | Except.error e => (st, some e)
      | Except.ok local_indvs =>
        match merge_seq local_indvs with
        | [] => (st, some (Err.indexError "list assignment index out of range"))
        | m :: ms =>
          let indvs := (m :: ms).set 0 best
          let st := { st with individuals := indvs }
          statsUpdate st

/-- One full generation (engine.py lines 84-118): the generation body
followed, on success, by the hook-dispatch loop, which only appends its
register-step events to the trace. -/
def generationStep {Indv : Type} (ops : GAOps Indv) (hooks : List Nat)
    (st : Engine Indv) (g : Nat) : Engine Indv × Option Err :=
  match genBody ops st g with
  | (st, some e) => (st, some e)
  | (st, none) => ({ st with trace := st.trace ++ stepEvents hooks g }, none)

/-- Embedding of `GAEngine.run` before the try block (engine.py lines
69-79): the missing-fitness guard, the initial statistics, and the hook
setup calls.  An exception here leaves `run` without reaching the loop or
the finally block. -/
def preRun {Indv : Type} (hooks : List Nat) (st : Engine Indv) (ng : Nat) :
    Engine Indv × Option Err :=
  match st.fitness with
  | none => (st, some (Err.attributeError "No fitness function in GA engine"))
  | some _ =>
    match statsUpdate st with
    | (st, some e) => (st, some e)
    | (st, none) => ({ st with trace := st.trace ++ setupEvents hooks ng }, none)

/-- The evolution loop `for g in range(ng)` inside the try block (engine.py
lines 83-118), over the list of generation indices: the first exception
stops the loop and is reported. -/
def runLoop {Indv : Type} (ops : GAOps Indv) (hooks : List Nat) :
    Engine Indv → List Nat → Engine Indv × Option Err
  | st, [] => (st, none)
  | st, g :: gs =>
    match generationStep ops hooks st g with
    | (st, some e) => (st, some e)
    | (st, none) => runLoop ops hooks st gs

/-- Embedding of the finally block (engine.py lines 125-130): reset the
generation counter to -1, then call finalize on every hook in registration
order. -/
def finallyBlock {Indv : Type} (hooks : List Nat) (st : Engine Indv) :
    Engine Indv :=
  { st with
    current_generation := -1
    trace := st.trace ++ finalizeEvents hooks }

/-- Embedding of `GAEngine.run` (engine.py lines 62-130): the pre-loop
phase, then the loop wrapped in try/finally, the finally block running on
both the normal and the exceptional loop exit, and the loop exception
re-raised unchanged afterwards.  The except clause only logs, which is not
modelled. -/
def run {Indv : Type} (ops : GAOps Indv) (hooks : List Nat)
    (st : Engine Indv) (ng : Nat) : Engine Indv × Option Err :=
  match preRun hooks st ng with
  | (st, some e) => (st, some e)
  | (st, none) =>
    let res := runLoop ops hooks st (List.range ng)
    (finallyBlock hooks res.1, res.2)

/-- A concrete operator set over rational-valued candidates, used by the
witnesses: selection always picks the pair (1, 1), crossover returns its
parents, mutation is the identity. -/
def demoOps : GAOps ℚ :=
  ⟨fun _ _ _ => Except.ok (1, 1), fun _ a b => Except.ok (a, b),
    fun _ _ c => Except.ok c⟩

/-- A concrete engine state with the two-individual population [7, 8] and a
registered constant fitness function, used by the witnesses. -/
def demoEngine : Engine ℚ :=
  ⟨[7, 8], some (fun _ _ => Except.ok 1), some (fun _ => Except.ok 1),
    none, none, none, -1, []⟩

/-! ## Claims about registration bookkeeping and the fitness wrappers -/

/-- C4 counterexample: register a raw function, then register a second one
through plain fitness registration.  The active fitness is replaced, but the
original-fitness reference keeps pointing at the wrapper of the first
function, so the most recently registered raw function is not the current
basis; moreover even the first registration stored the checking wrapper, not
the raw function itself. -/
theorem c4_registration_counterexample :
    (fitness_register (fitness_register ⟨none, none⟩ (FitFn.raw 1))
        (FitFn.raw 2)).ori_fitness = some (FitFn.checked (FitFn.raw 1)) ∧
    (fitness_register (fitness_register ⟨none, none⟩ (FitFn.raw 1))
        (FitFn.raw 2)).fitness = some (FitFn.checked (FitFn.raw 2)) ∧
    FitFn.checked (FitFn.raw 1) ≠ FitFn.raw 2 ∧
    FitFn.checked (FitFn.raw 1) ≠ FitFn.checked (FitFn.raw 2) ∧
    (fitness_register ⟨none, none⟩ (FitFn.raw 1)).ori_fitness ≠
      some (FitFn.raw 1) := by
  decide

/-- C4 (amended): either scaling registration unconditionally sets the
original-fitness reference to the newly supplied raw function, returns the
scaled wrapper and leaves the active fitness untouched; plain fitness
registration replaces the active fitness with the checking wrapper of the
supplied function, and sets the original-fitness reference to that wrapper
only when no original-fitness reference existed, leaving any previously
stored reference in place otherwise. -/
theorem c4_registration_updates (st : FitRefs) (fn : FitFn) (target : String)
    (ksi ksi0 r : ℚ) :
    ((linear_scaling st target ksi fn).1.ori_fitness = some fn ∧
      (linear_scaling st target ksi fn).1.fitness = st.fitness ∧
      (linear_scaling st target ksi fn).2 = FitFn.linScaled target ksi fn) ∧
    ((dynamic_linear_scaling st target ksi0 r fn).1.ori_fitness = some fn ∧
      (dynamic_linear_scaling st target ksi0 r fn).1.fitness = st.fitness ∧
      (dynamic_linear_scaling st target ksi0 r fn).2 =
        FitFn.dynScaled target ksi0 r fn) ∧
    ((fitness_register st fn).fitness = some (FitFn.checked fn)) ∧
    (st.ori_fitness = none →
      (fitness_register st fn).ori_fitness = some (FitFn.checked fn)) ∧
    (∀ g, st.ori_fitness = some g →
      (fitness_register st fn).ori_fitness = some g) := by
  refine ⟨⟨rfl, rfl, rfl⟩, ⟨rfl, rfl, rfl⟩, rfl, ?_, ?_⟩
  · intro h
    simp [fitness_register, h]
  · intro g hg
    simp [fitness_register, hg]

/-- Witness for c4_registration_updates at concrete inputs, discharging each
hypothesis. -/
theorem c4_registration_updates_witness :
    (fitness_register ⟨none, none⟩ (FitFn.raw 1)).ori_fitness =
      some (FitFn.checked (FitFn.raw 1)) ∧
    (fitness_register ⟨some (FitFn.raw 1), some (FitFn.raw 1)⟩
        (FitFn.raw 2)).ori_fitness = some (FitFn.raw 1) := by
  refine ⟨?_, ?_⟩
  · exact (c4_registration_updates ⟨none, none⟩ (FitFn.raw 1) "max" 0 0 0).2.2.2.1 rfl
  · exact (c4_registration_updates ⟨some (FitFn.raw 1), some (FitFn.raw 1)⟩
      (FitFn.raw 2) "max" 0 0 0).2.2.2.2 (FitFn.raw 1) rfl

/-- C5: static linear scaling computes `raw(x) - fmin + ksi` for target max
and `fmax - raw(x) + ksi` for target min, with the statistic read from the
engine state at call time, raises a ValueError at call time for any other
target, and at target max, ksi = 1/2, fmin = 2, raw(x) = 5 the scaled value
is 7/2. -/
theorem c5_linear_scaling {Indv : Type} (target : String) (ksi : ℚ)
    (fn : Indv → ℚ) (ctx : Ctx) (indv : Indv) (m : ℚ) :
    (target = "max" → ctx.fmin = some m →
      fnWithLinearScaling target ksi fn ctx indv =
        Except.ok (fn indv - m + ksi)) ∧
    (target = "min" → ctx.fmax = some m →
      fnWithLinearScaling target ksi fn ctx indv =
        Except.ok (m - fn indv + ksi)) ∧
    (target ≠ "max" → target ≠ "min" →
      fnWithLinearScaling target ksi fn ctx indv =
        Except.error (Err.valueError ("Invalid target type(" ++ target ++ ")"))) ∧
    fnWithLinearScaling "max" (1/2) (fun _ => (5 : ℚ))
      ⟨none, some 2, none, 0⟩ indv = Except.ok (7/2) := by
  refine ⟨?_, ?_, ?_, ?_⟩
  · intro h1 h2
    simp [fnWithLinearScaling, h1, h2]
  · intro h1 h2
    simp [fnWithLinearScaling, h1, h2]
  · intro h1 h2
    simp [fnWithLinearScaling, h1, h2]
  · norm_num [fnWithLinearScaling]

/-- Witness for c5_linear_scaling at concrete inputs, discharging the
hypotheses of each conditional conjunct. -/
theorem c5_linear_scaling_witness :
    fnWithLinearScaling "max" (1/2) (fun _ => (5 : ℚ))
      ⟨none, some 2, none, 0⟩ () = Except.ok (7/2) ∧
    fnWithLinearScaling "min" 1 (fun _ => (3 : ℚ))
      ⟨some 4, none, none, 0⟩ () = Except.ok (4 - 3 + 1) ∧
    fnWithLinearScaling "avg" 1 (fun _ => (3 : ℚ))
      ⟨none, none, none, 0⟩ () =
      Except.error (Err.valueError ("Invalid target type(" ++ "avg" ++ ")")) := by
  refine ⟨?_, ?_, ?_⟩
  · exact (c5_linear_scaling "max" (1/2) (fun _ => (5 : ℚ))
      ⟨none, some 2, none, 0⟩ () 2).2.2.2
  · exact (c5_linear_scaling "min" 1 (fun _ => (3 : ℚ))
      ⟨some 4, none, none, 0⟩ () 4).2.1 rfl rfl
  · exact (c5_linear_scaling "avg" 1 (fun _ => (3 : ℚ))
      ⟨none, none, none, 0⟩ () 0).2.2.1 (by decide) (by decide)

/-- C6: dynamic linear scaling uses the adjustment term `ksi0 * r ^ k` with
`k = current generation counter + 1`, substituted for ksi in the same
target-conditioned formulas as static scaling; with target max, ksi0 = 2,
r = 9/10, fmin = 0, raw(x) = 10 the scaled value is 59/5 (that is 11.8) at
generation counter 0, and `10 - 0 + 2 * (9/10) ^ 10` at generation
counter 9. -/
theorem c6_dynamic_linear_scaling {Indv : Type} (target : String)
    (ksi0 r : ℚ) (fn : Indv → ℚ) (ctx : Ctx) (indv : Indv) (m : ℚ) :
    (target = "max" → ctx.fmin = some m →
      fnWithDynamicLinearScaling target ksi0 r fn ctx indv =
        Except.ok (fn indv - m + ksi0 * r ^ (ctx.generation + 1))) ∧
    (target = "min" → ctx.fmax = some m →
      fnWithDynamicLinearScaling target ksi0 r fn ctx indv =
        Except.ok (m - fn indv + ksi0 * r ^ (ctx.generation + 1))) ∧
    (target ≠ "max" → target ≠ "min" →
      fnWithDynamicLinearScaling target ksi0 r fn ctx indv =
        Except.error (Err.valueError ("Invalid target type(" ++ target ++ ")"))) ∧
    fnWithDynamicLinearScaling "max" 2 (9/10) (fun _ => (10 : ℚ))
      ⟨none, some 0, none, 0⟩ indv = Except.ok (59/5) ∧
    fnWithDynamicLinearScaling "max" 2 (9/10) (fun _ => (10 : ℚ))
      ⟨none, some 0, none, 9⟩ indv =
      Except.ok (10 - 0 + 2 * (9/10 : ℚ) ^ (10 : ℤ)) := by
  refine ⟨?_, ?_, ?_, ?_, ?_⟩
  · intro h1 h2
    simp [fnWithDynamicLinearScaling, h1, h2]
  · intro h1 h2
    simp [fnWithDynamicLinearScaling, h1, h2]
  · intro h1 h2
    simp [fnWithDynamicLinearScaling, h1, h2]
  · norm_num [fnWithDynamicLinearScaling]
  · norm_num [fnWithDynamicLinearScaling]

/-- Witness for c6_dynamic_linear_scaling at concrete inputs, discharging
the hypotheses of each conditional conjunct. -/
theorem c6_dynamic_linear_scaling_witness :
    fnWithDynamicLinearScaling "max" 2 (9/10) (fun _ => (10 : ℚ))
      ⟨none, some 0, none, 0⟩ () = Except.ok (59/5) ∧
    fnWithDynamicLinearScaling "min" 2 (9/10) (fun _ => (3 : ℚ))
      ⟨some 4, none, none, 0⟩ () =
      Except.ok (4 - 3 + 2 * (9/10 : ℚ) ^ ((0 : ℤ) + 1)) ∧
    fnWithDynamicLinearScaling "avg" 2 (9/10) (fun _ => (3 : ℚ))
      ⟨none, none, none, 0⟩ () =
      Except.error (Err.valueError ("Invalid target type(" ++ "avg" ++ ")")) := by
  refine ⟨?_, ?_, ?_⟩
  · exact (c6_dynamic_linear_scaling "max" 2 (9/10) (fun _ => (10 : ℚ))
      ⟨none, some 0, none, 0⟩ () 0).2.2.2.1
  · exact (c6_dynamic_linear_scaling "min" 2 (9/10) (fun _ => (3 : ℚ))
      ⟨some 4, none, none, 0⟩ () 4).2.1 rfl rfl
  · exact (c6_dynamic_linear_scaling "avg" 2 (9/10) (fun _ => (3 : ℚ))
      ⟨none, none, none, 0⟩ () 0).2.2.1 (by decide) (by decide)

/-- C8 counterexample: a registered fitness function returning the integer 3
on a GAIndividual yields a ValueError from the wrapper, although 3 is a
numeric, non-NaN (finite real) result, because the wrapper insists on the
exact Python float type; so evaluation does not fail only on non-numeric or
NaN results. -/
theorem c8_fitness_check_counterexample :
    (PyVal.int 3).isNumericNonNan = true ∧
    (fnWithFitnessCheck (fun _ => PyVal.int 3) (PyObj.gaIndividual 0)).1 =
      Except.error (Err.valueError invalidFitnessMsg) := by
  exact ⟨rfl, rfl⟩

/-- C8 (amended): for a GAIndividual argument, the registered wrapper fails
with a ValueError exactly when the raw result is not of the Python float
type or is NaN; in particular integer results are rejected although finite
real, and the infinite float values are accepted although not finite.  A
passing result is returned unmodified. -/
theorem c8_fitness_check (fn : PyObj → PyVal) (indv : PyObj)
    (h : indv.isGAIndividual = true) :
    ((fnWithFitnessCheck fn indv).1 =
        Except.error (Err.valueError invalidFitnessMsg) ↔
      ((fn indv).isFloat = false ∨ (fn indv).isNan = true)) ∧
    ((fn indv).isFloat = true → (fn indv).isNan = false →
      (fnWithFitnessCheck fn indv).1 = Except.ok (fn indv)) ∧
    (fnWithFitnessCheck (fun _ => PyVal.inf) (PyObj.gaIndividual 0)).1 =
      Except.ok PyVal.inf := by
  refine ⟨?_, ?_, rfl⟩
  · unfold fnWithFitnessCheck
    cases hf : (fn indv).isFloat <;> cases hn : (fn indv).isNan <;>
      simp_all
  · intro hf hn
    unfold fnWithFitnessCheck
    simp [h, hf, hn]

/-- Witness for c8_fitness_check at a concrete input, discharging each
hypothesis. -/
theorem c8_fitness_check_witness :
    ((fnWithFitnessCheck (fun _ => PyVal.float 1) (PyObj.gaIndividual 0)).1 =
        Except.error (Err.valueError invalidFitnessMsg) ↔
      ((PyVal.float 1).isFloat = false ∨ (PyVal.float 1).isNan = true)) ∧
    (fnWithFitnessCheck (fun _ => PyVal.float 1) (PyObj.gaIndividual 0)).1 =
      Except.ok (PyVal.float 1) := by
  have h := c8_fitness_check (fun _ => PyVal.float 1) (PyObj.gaIndividual 0)
    (by decide)
  exact ⟨h.1, h.2.1 (by decide) (by decide)⟩

/-- C10: a fitness function registered through fitness_register, invoked on
an argument that is not a GAIndividual, raises a TypeError, and the
underlying user-supplied raw function is never called (the instrumented call
count is 0). -/
theorem c10_type_check_before_call (fn : PyObj → PyVal) (indv : PyObj)
    (h : indv.isGAIndividual = false) :
    fnWithFitnessCheck fn indv =
      (Except.error (Err.typeError "indv must be a GAIndividual object"), 0) := by
  unfold fnWithFitnessCheck
  simp [h]

/-- Witness for c10_type_check_before_call at a concrete input. -/
theorem c10_type_check_before_call_witness :
    fnWithFitnessCheck (fun _ => PyVal.float 1) (PyObj.other "a list") =
      (Except.error (Err.typeError "indv must be a GAIndividual object"), 0) :=
  c10_type_check_before_call (fun _ => PyVal.float 1) (PyObj.other "a list")
    (by decide)

/-! ## State-preservation lemmas for the loop machinery -/

theorem statsUpdate_individuals {Indv : Type} (st : Engine Indv) :
    (statsUpdate st).1.individuals = st.individuals := by
  unfold statsUpdate
  repeat' (first | split | dsimp only)

theorem statsUpdate_trace {Indv : Type} (st : Engine Indv) :
    (statsUpdate st).1.trace = st.trace := by
  unfold statsUpdate
  repeat' (first | split | dsimp only)

theorem reproduceUnit_length {Indv : Type} (ops : GAOps Indv)
    (fitc : Indv → Except Err ℚ) (ctx : Ctx) (pop : List Indv) (i : Nat)
    (cs : List Indv) (h : reproduceUnit ops fitc ctx pop i = Except.ok cs) :
    cs.length = 2 := by
  unfold reproduceUnit at h
  repeat' split at h
  any_goals exact Except.noConfusion h
  simp only [Except.ok.injEq] at h
  subst h
  rfl

theorem reproduceAll_length {Indv : Type} (ops : GAOps Indv)
    (fitc : Indv → Except Err ℚ) (ctx : Ctx) (pop : List Indv)
    (idxs : List Nat) (l : List Indv)
    (h : reproduceAll ops fitc ctx pop idxs = Except.ok l) :
    l.length = 2 * idxs.length := by
  induction idxs generalizing l with
  | nil =>
    unfold reproduceAll at h
    simp_all
  | cons i is ih =>
    unfold reproduceAll at h
    split at h
    · simp_all
    · rename_i cs hcs
      split at h
      · simp_all
      · rename_i rest hrest
        have h1 := reproduceUnit_length ops fitc ctx pop i cs hcs
        have h2 := ih rest hrest
        simp only [Except.ok.injEq] at h
        subst h
        simp [h1, h2]
        ring

theorem genBody_trace {Indv : Type} (ops : GAOps Indv) (st : Engine Indv)
    (g : Nat) : (genBody ops st g).1.trace = st.trace := by
  unfold genBody
  dsimp only
  repeat' split
  all_goals simp [statsUpdate_trace]

theorem genBody_length {Indv : Type} (ops : GAOps Indv) (st : Engine Indv)
    (g : Nat) (h : Even st.individuals.length) :
    (genBody ops st g).1.individuals.length = st.individuals.length := by
  unfold genBody
  dsimp only
  split
  · rfl
  · split
    · rfl
    · rename_i best _
      split
      · rfl
      · rename_i l hl
        split
        · rfl
        · rename_i m ms hm
          have hlen := reproduceAll_length _ _ _ _ _ l hl
          have h2 : (m :: ms).length = l.length := by
            rw [← hm]
            rfl
          rw [statsUpdate_individuals]
          obtain ⟨r, hr⟩ := h
          simp only [List.length_range] at hlen
          unfold split_size at hlen
          simp only [List.length_cons, List.length_set] at h2 ⊢
          omega

theorem generationStep_length {Indv : Type} (ops : GAOps Indv)
    (hooks : List Nat) (st : Engine Indv) (g : Nat)
    (h : Even st.individuals.length) :
    (generationStep ops hooks st g).1.individuals.length =
      st.individuals.length := by
  unfold generationStep
  split
  · rename_i st' e heq
    have h1 := genBody_length ops st g h
    rw [heq] at h1
    exact h1
  · rename_i st' heq
    have h1 := genBody_length ops st g h
    rw [heq] at h1
    simpa using h1

theorem runLoop_length {Indv : Type} (ops : GAOps Indv) (hooks : List Nat)
    (st : Engine Indv) (gs : List Nat) (h : Even st.individuals.length) :
    (runLoop ops hooks st gs).1.individuals.length =
      st.individuals.length := by
  induction gs generalizing st with
  | nil => rfl
  | cons g gs ih =>
    unfold runLoop
    split
    · rename_i st' e heq
      have h1 := generationStep_length ops hooks st g h
      rw [heq] at h1
      exact h1
    · rename_i st' heq
      have h1 := generationStep_length ops hooks st g h
      rw [heq] at h1
      have h2 : Even st'.individuals.length := by
        rw [show st'.individuals.length = st.individuals.length from h1]
        exact h
      rw [ih st' h2]
      exact h1

theorem preRun_individuals {Indv : Type} (hooks : List Nat)
    (st : Engine Indv) (ng : Nat) :
    (preRun hooks st ng).1.individuals = st.individuals := by
  unfold preRun
  split
  · rfl
  · split
    · rename_i st' e heq
      have h1 := statsUpdate_individuals st
      rw [heq] at h1
      exact h1
    · rename_i st' heq
      have h1 := statsUpdate_individuals st
      rw [heq] at h1
      simpa using h1

/-! ## C9: population size invariant -/

/-- C9: for every generation of a run, after the merged offspring sequence
with the elite written at index 0 replaces the individuals, the population
size equals the size it had before: both one generation step and a whole
`run` call (on any exit path, normal or exceptional) preserve the population
size, provided the size is even as the data model requires. -/
theorem c9_population_size_invariant {Indv : Type} (ops : GAOps Indv)
    (hooks : List Nat) (st : Engine Indv) (ng g : Nat)
    (h : Even st.individuals.length) :
    (generationStep ops hooks st g).1.individuals.length =
      st.individuals.length ∧
    (run ops hooks st ng).1.individuals.length = st.individuals.length := by
  refine ⟨generationStep_length ops hooks st g h, ?_⟩
  unfold run
  split
  · rename_i st' e heq
    have h1 := preRun_individuals hooks st ng
    rw [heq] at h1
    exact congrArg List.length h1
  · rename_i st' heq
    have h1 := preRun_individuals hooks st ng
    rw [heq] at h1
    have h1' : st'.individuals = st.individuals := h1
    have h2 : Even st'.individuals.length := by
      rw [h1']
      exact h
    have h3 := runLoop_length ops hooks st' (List.range ng) h2
    unfold finallyBlock
    dsimp only
    rw [h3, h1']

/-- Witness for c9_population_size_invariant at a concrete even-sized
population. -/
theorem c9_population_size_invariant_witness :
    Even demoEngine.individuals.length ∧
    (run demoOps [1] demoEngine 2).1.individuals.length =
      demoEngine.individuals.length :=
  ⟨by decide,
    (c9_population_size_invariant demoOps [1] demoEngine 2 0 (by decide)).2⟩

/-! ## C2: the missing-fitness guard and the discarded constructor argument -/

/-- C2: the constructor stores the optional fitness argument and then
unconditionally overwrites it with None (engine.py line 44 versus line 54),
so an engine built with an initial fitness function still has no registered
fitness; and `run` on an engine without a registered fitness function raises
the missing-fitness AttributeError immediately, returning the engine state
entirely unchanged (no statistics, generation-counter or population
mutation). -/
theorem c2_missing_fitness {Indv : Type} (ops : GAOps Indv)
    (hooks : List Nat) (pop : List Indv)
    (f : Ctx → Indv → Except Err ℚ) (st : Engine Indv) (ng : Nat)
    (h : st.fitness = none) :
    (engineInit pop (some f)).fitness = none ∧
    run ops hooks st ng =
      (st, some (Err.attributeError "No fitness function in GA engine")) := by
  refine ⟨rfl, ?_⟩
  unfold run preRun
  rw [h]

/-- Witness for c2_missing_fitness: the engine built with an initial fitness
function is exactly the failing input, and running it raises the
missing-fitness error with the state unchanged. -/
theorem c2_missing_fitness_witness :
    run demoOps [1] (engineInit [0] (some (fun _ _ => Except.ok 0))) 3 =
      (engineInit [0] (some (fun _ _ => Except.ok 0)),
        some (Err.attributeError "No fitness function in GA engine")) :=
  (c2_missing_fitness demoOps [1] [0] (fun _ _ => Except.ok 0)
    (engineInit [0] (some (fun _ _ => Except.ok 0))) 3 rfl).2

/-! ## C1: elitism -/

theorem genBody_head {Indv : Type} (ops : GAOps Indv) (st : Engine Indv)
    (g : Nat) (fit : Ctx → Indv → Except Err ℚ)
    (hf : st.fitness = some fit)
    (hs : (genBody ops st g).2 = none) :
    ∃ best,
      bestIndv (fit (ctxOf { st with current_generation := (g : ℤ) }))
        st.individuals = Except.ok best ∧
      (genBody ops st g).1.individuals.head? = some best := by
  unfold genBody at hs ⊢
  dsimp only at hs ⊢
  simp only [hf] at hs ⊢
  split at hs
  · simp_all
  · rename_i best hbest
    split at hs
    · simp_all
    · rename_i l hl
      split at hs
      · simp_all
      · rename_i m ms hm
        refine ⟨best, hbest, ?_⟩
        rw [statsUpdate_individuals]
        rfl

/-- C1: for every generation g of a run, when the generation completes, the
candidate at index 0 of the population after the merge-and-replace step is
the best candidate of the pre-generation population, as determined by the
population best lookup under the active fitness function evaluated against
the engine state at the start of generation g (statistics of the previous
generation, counter set to g), captured before any reproduction. -/
theorem c1_elitism {Indv : Type} (ops : GAOps Indv) (hooks : List Nat)
    (st : Engine Indv) (g : Nat) (fit : Ctx → Indv → Except Err ℚ)
    (hf : st.fitness = some fit)
    (hs : (generationStep ops hooks st g).2 = none) :
    ∃ best,
      bestIndv (fit (ctxOf { st with current_generation := (g : ℤ) }))
        st.individuals = Except.ok best ∧
      (generationStep ops hooks st g).1.individuals.head? = some best := by
  unfold generationStep at hs ⊢
  split at hs
  · simp_all
  · rename_i st' heq
    have h1 : (genBody ops st g).2 = none := by
      rw [heq]
    obtain ⟨best, hbest, hhead⟩ := genBody_head ops st g fit hf h1
    rw [heq] at hhead
    exact ⟨best, hbest, hhead⟩

/-- Witness for c1_elitism at a concrete population and operators. -/
theorem c1_elitism_witness :
    ∃ best,
      bestIndv ((fun _ _ => Except.ok 1 : Ctx → ℚ → Except Err ℚ)
          (ctxOf { demoEngine with current_generation := ((0 : Nat) : ℤ) }))
        demoEngine.individuals = Except.ok best ∧
      (generationStep demoOps [1] demoEngine 0).1.individuals.head? =
        some best :=
  c1_elitism demoOps [1] demoEngine 0 (fun _ _ => Except.ok 1) rfl rfl

/-! ## Shape and counting lemmas for the hook-event lists -/

theorem mem_stepEventsFrom (e : Event) (g n : Nat) (ks : List Nat)
    (h : e ∈ stepEventsFrom g n ks) : ∃ i, e = Event.registerStep i g := by
  induction ks generalizing n with
  | nil => simp [stepEventsFrom] at h
  | cons k ks ih =>
    unfold stepEventsFrom at h
    rw [List.mem_append] at h
    rcases h with h1 | h1
    · split at h1
      · simp at h1
        exact ⟨n, h1⟩
      · simp at h1
    · exact ih (n + 1) h1

theorem mem_setupEventsFrom (e : Event) (m n : Nat) (ks : List Nat)
    (h : e ∈ setupEventsFrom m n ks) : ∃ i, e = Event.setup i m := by
  induction ks generalizing n with
  | nil => simp [setupEventsFrom] at h
  | cons k ks ih =>
    unfold setupEventsFrom at h
    rw [List.mem_cons] at h
    rcases h with h1 | h1
    · exact ⟨n, h1⟩
    · exact ih (n + 1) h1

theorem mem_finalizeEventsFrom (e : Event) (n : Nat) (ks : List Nat)
    (h : e ∈ finalizeEventsFrom n ks) : ∃ i, e = Event.finalize i := by
  induction ks generalizing n with
  | nil => simp [finalizeEventsFrom] at h
  | cons k ks ih =>
    unfold finalizeEventsFrom at h
    rw [List.mem_cons] at h
    rcases h with h1 | h1
    · exact ⟨n, h1⟩
    · exact ih (n + 1) h1

theorem mem_flatten_stepEvents (hooks : List Nat) (gs : List Nat) (e : Event)
    (h : e ∈ (gs.map (stepEvents hooks)).flatten) :
    ∃ i g, e = Event.registerStep i g := by
  rw [List.mem_flatten] at h
  obtain ⟨l, hl, hel⟩ := h
  rw [List.mem_map] at hl
  obtain ⟨g2, _, rfl⟩ := hl
  obtain ⟨i, hi⟩ := mem_stepEventsFrom e g2 0 hooks hel
  exact ⟨i, g2, hi⟩

theorem count_registerStep_setupEventsFrom (m n i g : Nat) (ks : List Nat) :
    (setupEventsFrom m n ks).count (Event.registerStep i g) = 0 := by
  rw [List.count_eq_zero]
  intro hmem
  obtain ⟨j, hj⟩ := mem_setupEventsFrom _ m n ks hmem
  exact Event.noConfusion hj

theorem count_registerStep_finalizeEventsFrom (n i g : Nat) (ks : List Nat) :
    (finalizeEventsFrom n ks).count (Event.registerStep i g) = 0 := by
  rw [List.count_eq_zero]
  intro hmem
  obtain ⟨j, hj⟩ := mem_finalizeEventsFrom _ n ks hmem
  exact Event.noConfusion hj

theorem count_setup_finalizeEventsFrom (n i m : Nat) (ks : List Nat) :
    (finalizeEventsFrom n ks).count (Event.setup i m) = 0 := by
  rw [List.count_eq_zero]
  intro hmem
  obtain ⟨j, hj⟩ := mem_finalizeEventsFrom _ n ks hmem
  exact Event.noConfusion hj

theorem count_setup_flatten_stepEvents (hooks : List Nat) (gs : List Nat)
    (i m : Nat) :
    ((gs.map (stepEvents hooks)).flatten).count (Event.setup i m) = 0 := by
  rw [List.count_eq_zero]
  intro hmem
  obtain ⟨j, g2, hj⟩ := mem_flatten_stepEvents hooks gs _ hmem
  exact Event.noConfusion hj

theorem count_finalize_setupEventsFrom (m n i : Nat) (ks : List Nat) :
    (setupEventsFrom m n ks).count (Event.finalize i) = 0 := by
  rw [List.count_eq_zero]
  intro hmem
  obtain ⟨j, hj⟩ := mem_setupEventsFrom _ m n ks hmem
  exact Event.noConfusion hj

theorem count_finalize_flatten_stepEvents (hooks : List Nat) (gs : List Nat)
    (i : Nat) :
    ((gs.map (stepEvents hooks)).flatten).count (Event.finalize i) = 0 := by
  rw [List.count_eq_zero]
  intro hmem
  obtain ⟨j, g2, hj⟩ := mem_flatten_stepEvents hooks gs _ hmem
  exact Event.noConfusion hj

theorem finalizeEventsFrom_count_lt (n i : Nat) (ks : List Nat) (h : i < n) :
    (finalizeEventsFrom n ks).count (Event.finalize i) = 0 := by
  induction ks generalizing n with
  | nil => rfl
  | cons k ks ih =>
    unfold finalizeEventsFrom
    rw [List.count_cons_of_ne (by intro hh; injection hh with h1; omega)]
    exact ih (n + 1) (by omega)

theorem finalizeEventsFrom_count (n j : Nat) (ks : List Nat)
    (h : j < ks.length) :
    (finalizeEventsFrom n ks).count (Event.finalize (n + j)) = 1 := by
  induction ks generalizing n j with
  | nil => simp at h
  | cons k ks ih =>
    cases j with
    | zero =>
      simp only [Nat.add_zero]
      unfold finalizeEventsFrom
      rw [List.count_cons_self, finalizeEventsFrom_count_lt (n + 1) n ks (by omega)]
    | succ j =>
      have h2 : j < ks.length := by
        simp at h
        omega
      have h3 := ih (n + 1) j h2
      rw [show (n + 1) + j = n + (j + 1) from by omega] at h3
      unfold finalizeEventsFrom
      rw [List.count_cons_of_ne (by intro hh; injection hh with h1; omega)]
      exact h3

theorem setupEventsFrom_count_lt (m n i : Nat) (ks : List Nat) (h : i < n) :
    (setupEventsFrom m n ks).count (Event.setup i m) = 0 := by
  induction ks generalizing n with
  | nil => rfl
  | cons k ks ih =>
    unfold setupEventsFrom
    rw [List.count_cons_of_ne (by intro hh; injection hh with h1 h2; omega)]
    exact ih (n + 1) (by omega)

theorem setupEventsFrom_count (m n j : Nat) (ks : List Nat)
    (h : j < ks.length) :
    (setupEventsFrom m n ks).count (Event.setup (n + j) m) = 1 := by
  induction ks generalizing n j with
  | nil => simp at h
  | cons k ks ih =>
    cases j with
    | zero =>
      simp only [Nat.add_zero]
      unfold setupEventsFrom
      rw [List.count_cons_self, setupEventsFrom_count_lt m (n + 1) n ks (by omega)]
    | succ j =>
      have h2 : j < ks.length := by
        simp at h
        omega
      have h3 := ih (n + 1) j h2
      rw [show (n + 1) + j = n + (j + 1) from by omega] at h3
      unfold setupEventsFrom
      rw [List.count_cons_of_ne (by intro hh; injection hh with h1 h2; omega)]
      exact h3

theorem stepEventsFrom_count_ne (g g2 n i : Nat) (ks : List Nat)
    (h : g2 ≠ g) :
    (stepEventsFrom g2 n ks).count (Event.registerStep i g) = 0 := by
  induction ks generalizing n with
  | nil => rfl
  | cons k ks ih =>
    unfold stepEventsFrom
    rw [List.count_append, ih (n + 1)]
    split
    · rw [List.count_cons_of_ne (by intro hh; injection hh with h1 h2; omega),
        List.count_nil]
    · rfl

theorem stepEventsFrom_count_lt (g n i : Nat) (ks : List Nat) (h : i < n) :
    (stepEventsFrom g n ks).count (Event.registerStep i g) = 0 := by
  induction ks generalizing n with
  | nil => rfl
  | cons k ks ih =>
    unfold stepEventsFrom
    rw [List.count_append, ih (n + 1) (by omega)]
    split
    · rw [List.count_cons_of_ne (by intro hh; injection hh with h1 h2; omega),
        List.count_nil]
    · rfl

theorem stepEventsFrom_count_get (g n j k : Nat) (ks : List Nat)
    (h : ks[j]? = some k) :
    (stepEventsFrom g n ks).count (Event.registerStep (n + j) g) =
      if g % k = 0 then 1 else 0 := by
  induction ks generalizing n j with
  | nil => simp at h
  | cons k0 ks ih =>
    cases j with
    | zero =>
      have hk : k0 = k := by
        simpa using h
      subst hk
      simp only [Nat.add_zero]
      unfold stepEventsFrom
      rw [List.count_append, stepEventsFrom_count_lt g (n + 1) n ks (by omega)]
      split
      · rw [List.count_cons_self, List.count_nil]
      · rfl
    | succ j =>
      have h2 : ks[j]? = some k := by
        simpa using h
      have h3 := ih (n + 1) j h2
      rw [show (n + 1) + j = n + (j + 1) from by omega] at h3
      unfold stepEventsFrom
      rw [List.count_append, h3]
      split
      · rw [List.count_cons_of_ne (by intro hh; injection hh with h1 h2; omega),
          List.count_nil]
        exact Nat.zero_add _
      · exact Nat.zero_add _

theorem flatten_count_notMem (hooks : List Nat) (i g : Nat) (gs : List Nat)
    (h : g ∉ gs) :
    ((gs.map (stepEvents hooks)).flatten).count (Event.registerStep i g) = 0 := by
  induction gs with
  | nil => rfl
  | cons g2 gs ih =>
    simp only [List.mem_cons, not_or] at h
    simp only [List.map_cons, List.flatten_cons, List.count_append]
    rw [ih h.2]
    unfold stepEvents
    rw [stepEventsFrom_count_ne g g2 0 i hooks (fun hh => h.1 hh.symm)]

theorem flatten_count_range (hooks : List Nat) (i g ng : Nat) (hg : g < ng) :
    (((List.range ng).map (stepEvents hooks)).flatten).count
        (Event.registerStep i g) =
      (stepEvents hooks g).count (Event.registerStep i g) := by
  induction ng with
  | zero => omega
  | succ n ih =>
    rw [List.range_succ, List.map_append, List.flatten_append, List.count_append]
    rcases Nat.lt_or_ge g n with h | h
    · rw [ih h]
      simp only [List.map_cons, List.map_nil, List.flatten_cons,
        List.flatten_nil, List.append_nil]
      unfold stepEvents
      rw [stepEventsFrom_count_ne g n 0 i hooks (by omega)]
      omega
    · have hgn : g = n := by omega
      subst hgn
      rw [flatten_count_notMem hooks i g (List.range g) (by simp)]
      simp only [List.map_cons, List.map_nil, List.flatten_cons,
        List.flatten_nil, List.append_nil, Nat.zero_add]


/-! ## Trace-evolution lemmas for run -/

theorem setupEventsFrom_filter_fin (m n : Nat) (ks : List Nat) :
    (setupEventsFrom m n ks).filter Event.isFin = [] := by
  induction ks generalizing n with
  | nil => rfl
  | cons k ks ih =>
    unfold setupEventsFrom
    rw [List.filter_cons]
    simp only [Event.isFin]
    exact ih (n + 1)

theorem stepEventsFrom_filter_fin (g n : Nat) (ks : List Nat) :
    (stepEventsFrom g n ks).filter Event.isFin = [] := by
  induction ks generalizing n with
  | nil => rfl
  | cons k ks ih =>
    unfold stepEventsFrom
    rw [List.filter_append, ih (n + 1)]
    split
    · rw [List.filter_cons]
      simp only [Event.isFin]
      rfl
    · rfl

theorem finalizeEventsFrom_filter_fin (n : Nat) (ks : List Nat) :
    (finalizeEventsFrom n ks).filter Event.isFin = finalizeEventsFrom n ks := by
  induction ks generalizing n with
  | nil => rfl
  | cons k ks ih =>
    unfold finalizeEventsFrom
    rw [List.filter_cons]
    simp [Event.isFin, ih (n + 1)]

theorem generationStep_trace_filter_fin {Indv : Type} (ops : GAOps Indv)
    (hooks : List Nat) (st : Engine Indv) (g : Nat) :
    (generationStep ops hooks st g).1.trace.filter Event.isFin =
      st.trace.filter Event.isFin := by
  unfold generationStep
  split
  · rename_i st' e heq
    have h := genBody_trace ops st g
    rw [heq] at h
    exact congrArg (List.filter Event.isFin) h
  · rename_i st' heq
    have h := genBody_trace ops st g
    rw [heq] at h
    have h' : st'.trace = st.trace := h
    dsimp only
    rw [List.filter_append, h']
    unfold stepEvents
    rw [stepEventsFrom_filter_fin]
    exact List.append_nil _

theorem runLoop_trace_filter_fin {Indv : Type} (ops : GAOps Indv)
    (hooks : List Nat) (st : Engine Indv) (gs : List Nat) :
    (runLoop ops hooks st gs).1.trace.filter Event.isFin =
      st.trace.filter Event.isFin := by
  induction gs generalizing st with
  | nil => rfl
  | cons g gs ih =>
    unfold runLoop
    split
    · rename_i st' e heq
      have h := generationStep_trace_filter_fin ops hooks st g
      rw [heq] at h
      exact h
    · rename_i st' heq
      have h := generationStep_trace_filter_fin ops hooks st g
      rw [heq] at h
      rw [ih st']
      exact h

theorem preRun_trace_filter_fin {Indv : Type} (hooks : List Nat)
    (st : Engine Indv) (ng : Nat) :
    (preRun hooks st ng).1.trace.filter Event.isFin =
      st.trace.filter Event.isFin := by
  unfold preRun
  split
  · rfl
  · split
    · rename_i st' e heq
      have h := statsUpdate_trace st
      rw [heq] at h
      exact congrArg (List.filter Event.isFin) h
    · rename_i st' heq
      have h := statsUpdate_trace st
      rw [heq] at h
      have h' : st'.trace = st.trace := h
      dsimp only
      rw [List.filter_append, h']
      unfold setupEvents
      rw [setupEventsFrom_filter_fin]
      exact List.append_nil _

theorem preRun_trace_succ {Indv : Type} (hooks : List Nat)
    (st : Engine Indv) (ng : Nat)
    (hpre : (preRun hooks st ng).2 = none) :
    (preRun hooks st ng).1.trace = st.trace ++ setupEvents hooks ng := by
  unfold preRun at hpre ⊢
  split at hpre
  · simp at hpre
  · split at hpre
    · simp at hpre
    · rename_i st' heq
      have h := statsUpdate_trace st
      rw [heq] at h
      have h' : st'.trace = st.trace := h
      dsimp only
      rw [h']

theorem generationStep_trace_succ {Indv : Type} (ops : GAOps Indv)
    (hooks : List Nat) (st : Engine Indv) (g : Nat) (st' : Engine Indv)
    (heq : generationStep ops hooks st g = (st', none)) :
    st'.trace = st.trace ++ stepEvents hooks g := by
  unfold generationStep at heq
  split at heq
  · rename_i a e h2
    injection heq with hfst hsnd
    exact Option.noConfusion hsnd
  · rename_i a h2
    have h := genBody_trace ops st g
    rw [h2] at h
    have h' : a.trace = st.trace := h
    injection heq with hfst hsnd
    rw [← hfst]
    dsimp only
    rw [h']

theorem runLoop_trace_succ {Indv : Type} (ops : GAOps Indv)
    (hooks : List Nat) (st : Engine Indv) (gs : List Nat)
    (hs : (runLoop ops hooks st gs).2 = none) :
    (runLoop ops hooks st gs).1.trace =
      st.trace ++ (gs.map (stepEvents hooks)).flatten := by
  induction gs generalizing st with
  | nil => simp [runLoop]
  | cons g gs ih =>
    unfold runLoop at hs ⊢
    split at hs
    · simp at hs
    · rename_i st' heq
      rw [ih st' hs, generationStep_trace_succ ops hooks st g st' heq]
      simp [List.append_assoc]

theorem run_succ {Indv : Type} (ops : GAOps Indv) (hooks : List Nat)
    (st : Engine Indv) (ng : Nat)
    (hs : (run ops hooks st ng).2 = none) :
    (preRun hooks st ng).2 = none ∧
    (run ops hooks st ng).1.trace =
      (preRun hooks st ng).1.trace ++
        ((List.range ng).map (stepEvents hooks)).flatten ++
        finalizeEvents hooks := by
  unfold run at hs ⊢
  split at hs
  · simp at hs
  · rename_i st' heq
    have hpre : (preRun hooks st ng).2 = none := by
      rw [heq]
    refine ⟨hpre, ?_⟩
    dsimp only at hs ⊢
    unfold finallyBlock
    dsimp only
    rw [runLoop_trace_succ ops hooks st' (List.range ng) hs, heq]

/-! ## C3: finalize exactly once, counter reset, exception re-raised -/

/-- C3: for every run invocation that reaches the evolution loop, on both
exit paths (normal completion of all generations and loop exception), each
registered hook receives exactly one finalize event, the finalize events of
the trace are exactly the registration-ordered list over all hooks, the
generation counter is reset to the sentinel -1, and the loop outcome
(including any exception) is returned to the caller unchanged. -/
theorem c3_finalize_semantics {Indv : Type} (ops : GAOps Indv)
    (hooks : List Nat) (st : Engine Indv) (ng : Nat)
    (h0 : st.trace = [])
    (hpre : (preRun hooks st ng).2 = none) :
    (run ops hooks st ng).1.current_generation = -1 ∧
    (run ops hooks st ng).1.trace.filter Event.isFin = finalizeEvents hooks ∧
    (∀ i, i < hooks.length →
      (run ops hooks st ng).1.trace.count (Event.finalize i) = 1) ∧
    (run ops hooks st ng).2 =
      (runLoop ops hooks (preRun hooks st ng).1 (List.range ng)).2 := by
  unfold run
  split
  · rename_i st' e heq
    rw [heq] at hpre
    simp at hpre
  · rename_i st' heq
    have hloopfin :
        (runLoop ops hooks st' (List.range ng)).1.trace.filter Event.isFin =
          [] := by
      rw [runLoop_trace_filter_fin]
      have h := preRun_trace_filter_fin hooks st ng
      rw [heq] at h
      have h' : st'.trace.filter Event.isFin = st.trace.filter Event.isFin := h
      rw [h', h0]
      rfl
    refine ⟨rfl, ?_, ?_, ?_⟩
    · unfold finallyBlock
      dsimp only
      rw [List.filter_append, hloopfin]
      unfold finalizeEvents
      rw [finalizeEventsFrom_filter_fin]
      exact List.nil_append _
    · intro i hi
      unfold finallyBlock
      dsimp only
      rw [List.count_append]
      have hz : (runLoop ops hooks st' (List.range ng)).1.trace.count
          (Event.finalize i) = 0 := by
        rw [List.count_eq_zero]
        intro hmem
        have h2 : Event.finalize i ∈
            (runLoop ops hooks st' (List.range ng)).1.trace.filter
              Event.isFin := by
          exact List.mem_filter.mpr ⟨hmem, rfl⟩
        rw [hloopfin] at h2
        exact absurd h2 (List.not_mem_nil _)
      rw [hz]
      have h1 := finalizeEventsFrom_count 0 i hooks hi
      unfold finalizeEvents
      simpa using h1
    · rw [heq]

/-- Witness for c3_finalize_semantics at a concrete engine, hooks and
generation count. -/
theorem c3_finalize_semantics_witness :
    (run demoOps [1, 2] demoEngine 2).1.current_generation = -1 ∧
    (run demoOps [1, 2] demoEngine 2).1.trace.filter Event.isFin =
      finalizeEvents [1, 2] :=
  ⟨(c3_finalize_semantics demoOps [1, 2] demoEngine 2 rfl rfl).1,
    (c3_finalize_semantics demoOps [1, 2] demoEngine 2 rfl rfl).2.1⟩

/-! ## C7: hook dispatch cadence -/

/-- C7: on a successful run over ng generations with positive hook
intervals, a hook with interval k receives a register-step event for
generation g < ng exactly when g is divisible by k (once when it fires,
never otherwise), each hook receives exactly one setup event, and all setup
events precede every other event of the run trace, so setup happens before
generation 0 could fire. -/
theorem c7_hook_cadence {Indv : Type} (ops : GAOps Indv) (hooks : List Nat)
    (st : Engine Indv) (ng i k g : Nat)
    (h0 : st.trace = [])
    (hk : hooks[i]? = some k)
    (hkpos : 0 < k)
    (hg : g < ng)
    (hs : (run ops hooks st ng).2 = none) :
    ((run ops hooks st ng).1.trace.count (Event.registerStep i g) =
      if g % k = 0 then 1 else 0) ∧
    (run ops hooks st ng).1.trace.count (Event.setup i ng) = 1 ∧
    ∃ rest, (run ops hooks st ng).1.trace = setupEvents hooks ng ++ rest ∧
      ∀ j m, Event.setup j m ∉ rest := by
  have hilen : i < hooks.length := by
    by_contra hc
    push_neg at hc
    rw [List.getElem?_eq_none hc] at hk
    exact Option.noConfusion hk
  obtain ⟨hpre, htr⟩ := run_succ ops hooks st ng hs
  have hpt := preRun_trace_succ hooks st ng hpre
  rw [h0, List.nil_append] at hpt
  rw [hpt] at htr
  refine ⟨?_, ?_, ?_⟩
  · rw [htr, List.count_append, List.count_append]
    unfold setupEvents
    rw [count_registerStep_setupEventsFrom]
    rw [flatten_count_range hooks i g ng hg]
    unfold stepEvents
    have h2 := stepEventsFrom_count_get g 0 i k hooks hk
    rw [Nat.zero_add] at h2
    rw [h2]
    unfold finalizeEvents
    rw [count_registerStep_finalizeEventsFrom]
    simp
  · rw [htr, List.count_append, List.count_append]
    unfold setupEvents
    have h1 := setupEventsFrom_count ng 0 i hooks hilen
    rw [count_setup_flatten_stepEvents]
    unfold finalizeEvents
    rw [count_setup_finalizeEventsFrom]
    simpa using h1
  · refine ⟨((List.range ng).map (stepEvents hooks)).flatten ++
      finalizeEvents hooks, ?_, ?_⟩
    · rw [htr, List.append_assoc]
    · intro j m hmem
      rw [List.mem_append] at hmem
      rcases hmem with h1 | h1
      · obtain ⟨a, b, hab⟩ := mem_flatten_stepEvents hooks (List.range ng) _ h1
        exact Event.noConfusion hab
      · obtain ⟨a, hab⟩ := mem_finalizeEventsFrom _ 0 hooks h1
        exact Event.noConfusion hab

/-- Witness for c7_hook_cadence at a concrete engine with one hook of
interval 2 and a one-generation run. -/
theorem c7_hook_cadence_witness :
    ((run demoOps [2] demoEngine 1).1.trace.count (Event.registerStep 0 0) =
      if 0 % 2 = 0 then 1 else 0) ∧
    (run demoOps [2] demoEngine 1).1.trace.count (Event.setup 0 1) = 1 :=
  ⟨(c7_hook_cadence demoOps [2] demoEngine 1 0 2 0 rfl rfl (by decide)
      (by decide) (by decide)).1,
    (c7_hook_cadence demoOps [2] demoEngine 1 0 2 0 rfl rfl (by decide)
      (by decide) (by decide)).2.1⟩

end Gaft
